import Mathlib

/-!
Verification of the page-summary extractor (servers/gateway/handlers/summary.go).

The development shallowly embeds the Go source:

* `resolveURL`, and the fragment of Go's `net/url` it calls (`Parse`,
  `ResolveReference`, `resolvePath`, `URL.String`), are modelled over a
  `URL` structure.  Strings are worked with as their character lists.
  Representation choices for the `net/url` model (each noted at its
  definition): paths, hosts and fragments are kept in their serialized
  (percent-escaped) form — Go stores the decoded form plus the raw form and
  re-serializes, which coincides with this representation whenever the
  serialized form is canonical, as it is for every input exercised here;
  userinfo before `@` is validated and kept serialized.  A `url.Parse` failure
  is `none`; the source drops the error with `_`, so a failed parse leaves a
  nil `*URL` and the subsequent `ResolveReference` call dereferences nil —
  modelled as the resolver returning `none` (a fault).
* `extractSummary`'s scan over the tokenizer is modelled as a function over
  an explicit token list; the end of the list stands for the tokenizer's
  `ErrorToken`, with `endErr = none` for `io.EOF` and `endErr = some msg`
  for any other tokenizer error (on which the source calls `log.Fatalf`,
  modelled as the fault `Fault.fatalTokenize`).  Go's in-place mutation of
  the `*PreviewImage` stored in the images slice is modelled by replacing
  the last list element.
* Faults (slice index out of range, nil dereference, `log.Fatalf`) are the
  constructors of `Fault`; a run of the parser yields
  `Except Fault (PageSummary × Option String)`, the second component being
  the `error` return value of `extractSummary` (`some "EOF"` for `io.EOF`).
-/

/-! ### Character-list string helpers -/

/-- Last index of character `c` in a list, if any (Go `strings.LastIndex`
with a one-character separator; `none` for Go's `-1`). -/
def lastIdxOfAux (c : Char) : List Char → Nat → Option Nat
  | [], _ => none
  | x :: xs, i =>
    match lastIdxOfAux c xs (i + 1) with
    | some j => some j
    | none => if x = c then some i else none

/-- Last index of `c` in the characters of `s`. -/
def lastIdxOf (s : String) (c : Char) : Option Nat :=
  lastIdxOfAux c s.data 0

/-- First index of character `c` (Go `strings.IndexByte`; `none` for `-1`). -/
def firstIdxOfAux (c : Char) : List Char → Nat → Option Nat
  | [], _ => none
  | x :: xs, i => if x = c then some i else firstIdxOfAux c xs (i + 1)

/-- First index of `c` in the characters of `s`. -/
def firstIdxOf (s : String) (c : Char) : Option Nat :=
  firstIdxOfAux c s.data 0

/-- Go `split(s, sep, true)`: the part before the first `sep` and the part
after it, the separator dropped; `(s, "")` when `sep` does not occur. -/
def splitCut : List Char → Char → List Char × List Char
  | [], _ => ([], [])
  | c :: cs, sep =>
    if c = sep then ([], cs)
    else
      let p := splitCut cs sep
      (c :: p.1, p.2)

/-- Go `split(s, sep, false)`: as `splitCut` but the separator stays at the
head of the second part. -/
def splitKeep : List Char → Char → List Char × List Char
  | [], _ => ([], [])
  | c :: cs, sep =>
    if c = sep then ([], c :: cs)
    else
      let p := splitKeep cs sep
      (c :: p.1, p.2)

/-- Go `strings.Split` with a one-character separator. -/
def splitOnChar (sep : Char) : List Char → List (List Char)
  | [] => [[]]
  | c :: cs =>
    let r := splitOnChar sep cs
    if c = sep then [] :: r
    else
      match r with
      | a :: rest => (c :: a) :: rest
      | [] => [[c]]

/-- Go `strings.Split(s, sep)` for a one-character `sep`, over strings. -/
def goSplit (s : String) (sep : Char) : List String :=
  (splitOnChar sep s.data).map String.mk

/-- Whether `pre` is a prefix of `s` (Go `strings.HasPrefix`). -/
def strStarts (s pre : String) : Bool :=
  pre.data.isPrefixOf s.data

/-- Whether character `c` occurs in `s` (Go `strings.Contains` /
`strings.IndexAny` with a one-character needle). -/
def strContains (s : String) (c : Char) : Bool :=
  s.data.contains c

/-- Go `stringContainsCTLByte`: an ASCII control character ends a URL parse. -/
def containsCTLByte (s : String) : Bool :=
  s.data.any fun c => c.toNat < 0x20 || c.toNat == 0x7f

/-- ASCII letter, the first character a URL scheme may have. -/
def isSchemeAlpha (c : Char) : Bool :=
  ('a' ≤ c && c ≤ 'z') || ('A' ≤ c && c ≤ 'Z')

/-- Decimal digit as Go's scheme scanner tests it. -/
def isDigitCh (c : Char) : Bool :=
  '0' ≤ c && c ≤ '9'

/-- Hexadecimal digit, for percent-escape validation. -/
def isHexDig (c : Char) : Bool :=
  isDigitCh c || ('a' ≤ c && c ≤ 'f') || ('A' ≤ c && c ≤ 'F')

/-- Every `%` is followed by two hexadecimal digits: the only way Go's
`unescape` can fail on a path or fragment, hence the error behavior of
`URL.setPath` / `URL.setFragment` in this serialized-form model. -/
def validPctEscapes : List Char → Bool
  | [] => true
  | '%' :: a :: b :: rest => isHexDig a && isHexDig b && validPctEscapes rest
  | '%' :: _ => false
  | _ :: rest => validPctEscapes rest

/-- Go `validOptionalPort`: empty, or `:` followed by digits only. -/
def validOptionalPort (port : List Char) : Bool :=
  match port with
  | [] => true
  | c :: cs => c = ':' && cs.all isDigitCh

/-- ASCII lower-casing of a string (Go `strings.ToLower` on the ASCII
schemes `getScheme` can produce). -/
def strToLower (s : String) : String :=
  String.mk (s.data.map Char.toLower)

/-! ### The Go `net/url` model -/

/-- Go `url.URL`, with `Path`, `Host`, `Fragment` and the userinfo kept in
serialized (escaped) form (see the file comment). `opaquePart` is the
source's `Opaque` field (`opaque` is a Lean keyword); `user = none` is
Go's nil `*Userinfo`. -/
structure URL where
  scheme : String := ""
  opaquePart : String := ""
  user : Option String := none
  host : String := ""
  path : String := ""
  forceQuery : Bool := false
  rawQuery : String := ""
  fragment : String := ""
deriving Repr, DecidableEq

/-- Loop of Go `getScheme` past a first alphabetic character: scheme
characters accumulate (reversed) until `:` splits, a non-scheme character
yields no scheme, and so does the end of the string. -/
def getSchemeLoop (raw : String) : List Char → List Char → Option (String × String)
  | _, [] => some ("", raw)
  | acc, c :: cs =>
    if c = ':' then some (String.mk acc.reverse, String.mk cs)
    else if isSchemeAlpha c || isDigitCh c || c = '+' || c = '-' || c = '.' then
      getSchemeLoop raw (c :: acc) cs
    else some ("", raw)

/-- Go `getScheme`: splits a leading `scheme:`; `none` is the
"missing protocol scheme" error for a leading `:`. A first character that
is a digit, `+`, `-` or `.` (or any other non-letter) means no scheme. -/
def getScheme (raw : String) : Option (String × String) :=
  match raw.data with
  | [] => some ("", raw)
  | c :: cs =>
    if isSchemeAlpha c then getSchemeLoop raw [c] cs
    else if c = ':' then none
    else some ("", raw)

/-- Characters Go's `shouldEscape(c, encodeHost)` lets stand unescaped in a
host: alphanumerics, the RFC 3986 marks `- _ . ~`, the sub-delims together
with `: [ ] < > "` (39 and 34 are the apostrophe and double-quote bytes of
that table), and any non-ASCII byte. -/
def isHostChar (c : Char) : Bool :=
  ('a' ≤ c && c ≤ 'z') || ('A' ≤ c && c ≤ 'Z') || ('0' ≤ c && c ≤ '9') ||
  c = '-' || c = '_' || c = '.' || c = '~' ||
  c = '!' || c = '$' || c = '&' || c.toNat == 39 || c = '(' || c = ')' ||
  c = '*' || c = '+' || c = ',' || c = ';' || c = '=' || c = ':' ||
  c = '[' || c = ']' || c = '<' || c = '>' || c.toNat == 34 ||
  0x80 ≤ c.toNat

/-- Numeric value of a hexadecimal digit (Go `unhex`). -/
def hexVal (c : Char) : Nat :=
  if isDigitCh c then c.toNat - 48
  else if 'a' ≤ c && c ≤ 'f' then c.toNat - 87
  else if 'A' ≤ c && c ≤ 'F' then c.toNat - 55
  else 0

/-- Validation performed by Go's `unescape(host, encodeHost)` on the
serialized host: every `%` begins a well-formed escape that encodes a
non-ASCII byte (first hex digit ≥ 8) or is exactly `%25`, and every
unescaped character is one a host may contain.  (The RFC 6874
zone-identifier relaxation for the part after `%25` inside a bracketed
IPv6 literal is not modelled; no claim involves IPv6 zones.) -/
def validHostEscapes : List Char → Bool
  | [] => true
  | '%' :: a :: b :: rest =>
    isHexDig a && isHexDig b && (8 ≤ hexVal a || (a = '2' && b = '5')) &&
    validHostEscapes rest
  | '%' :: _ => false
  | c :: rest => isHostChar c && validHostEscapes rest

/-- Go `parseHost`: port validation for bracketed and plain hosts, then the
`unescape(host, encodeHost)` validation; the host is kept serialized
(decoding and re-encoding, identity on these validated forms up to escaped
non-ASCII bytes, is not modelled). -/
def parseHost (host : String) : Option String :=
  if strStarts host "[" then
    match lastIdxOf host ']' with
    | none => none
    | some i =>
      if validOptionalPort (host.data.drop (i + 1)) then
        if validHostEscapes host.data then some host else none
      else none
  else
    match lastIdxOf host ':' with
    | none => if validHostEscapes host.data then some host else none
    | some i =>
      if validOptionalPort (host.data.drop i) then
        if validHostEscapes host.data then some host else none
      else none

/-- Characters Go's `validUserinfo` accepts (39 is the apostrophe byte of
its table); non-ASCII runes are rejected. -/
def validUserinfoChar (c : Char) : Bool :=
  ('A' ≤ c && c ≤ 'Z') || ('a' ≤ c && c ≤ 'z') || ('0' ≤ c && c ≤ '9') ||
  c = '-' || c = '.' || c = '_' || c = ':' || c = '~' || c = '!' || c = '$' ||
  c = '&' || c.toNat == 39 || c = '(' || c = ')' || c = '*' || c = '+' ||
  c = ',' || c = ';' || c = '=' || c = '%' || c = '@'

/-- Go `parseAuthority`: the host after the last `@` goes through
`parseHost`; the userinfo before it is checked by `validUserinfo` and, as
in `unescape(..., encodeUserPassword)`, for well-formed percent-escapes,
and is kept serialized. -/
def parseAuthority (authority : String) : Option (Option String × String) :=
  match lastIdxOf authority '@' with
  | none =>
    match parseHost authority with
    | none => none
    | some host => some (none, host)
  | some i =>
    match parseHost (String.mk (authority.data.drop (i + 1))) with
    | none => none
    | some host =>
      let userinfo := String.mk (authority.data.take i)
      if userinfo.data.all validUserinfoChar && validPctEscapes userinfo.data then
        some (some userinfo, host)
      else none

/-- Authority-and-path tail of Go `parse` (with `viaRequest = false`): a
`//` prefix (unless schemeless `///`) starts an authority; the remainder is
the path, validated for percent-escapes by `setPath`. -/
def parseAuthorityAndPath (scheme : String) (forceQuery : Bool) (rawQuery : String)
    (rest : String) : Option URL :=
  if (scheme ≠ "" || !strStarts rest "///") && strStarts rest "//" then
    let p := splitKeep (rest.data.drop 2) '/'
    match parseAuthority (String.mk p.1) with
    | none => none
    | some uh =>
      if validPctEscapes p.2 then
        some { scheme := scheme, user := uh.1, host := uh.2, path := String.mk p.2,
               forceQuery := forceQuery, rawQuery := rawQuery }
      else none
  else
    if validPctEscapes rest.data then
      some { scheme := scheme, path := rest,
             forceQuery := forceQuery, rawQuery := rawQuery }
    else none

/-- Go `parse(rawURL, false)`: control-character check, `*`, scheme split,
query split (with the lone-trailing-`?` `ForceQuery` case), the opaque
rootless-path case, the schemeless first-segment-colon error, then
authority and path. -/
def goParse (rawURL : String) : Option URL :=
  if containsCTLByte rawURL then none
  else if rawURL = "*" then some { path := "*" }
  else
    match getScheme rawURL with
    | none => none
    | some (scheme0, rest0) =>
      let scheme := strToLower scheme0
      let q :=
        if rest0.data.getLast? = some '?' && !strContains (String.mk rest0.data.dropLast) '?' then
          (String.mk rest0.data.dropLast, true, "")
        else
          let p := splitCut rest0.data '?'
          (String.mk p.1, false, String.mk p.2)
      let rest := q.1
      let forceQuery := q.2.1
      let rawQuery := q.2.2
      if !strStarts rest "/" then
        if scheme ≠ "" then
          some { scheme := scheme, opaquePart := rest,
                 forceQuery := forceQuery, rawQuery := rawQuery }
        else
          let seg := splitKeep rest.data '/'
          if strContains (String.mk seg.1) ':' then none
          else parseAuthorityAndPath scheme forceQuery rawQuery rest
      else parseAuthorityAndPath scheme forceQuery rawQuery rest

/-- Go `url.Parse`: cut the fragment at the first `#`, parse the rest, then
validate and attach the fragment (kept serialized). -/
def goParseURL (rawURL : String) : Option URL :=
  let p := splitCut rawURL.data '#'
  match goParse (String.mk p.1) with
  | none => none
  | some url =>
    if p.2 = [] then some url
    else if validPctEscapes p.2 then some { url with fragment := String.mk p.2 }
    else none

/-- Go `resolvePath` (the segment-list form): merge `ref` onto `base` per
RFC 3986, drop `.` segments, let `..` pop, keep a trailing slash after a
final dot segment, and root the result at `/`. -/
def resolvePath (base ref : String) : String :=
  let full : String :=
    if ref = "" then base
    else if !strStarts ref "/" then
      match lastIdxOf base '/' with
      | none => ref
      | some i => String.mk (base.data.take (i + 1)) ++ ref
    else ref
  if full = "" then ""
  else
    let src := goSplit full '/'
    let dst := src.foldl
      (fun dst elem =>
        if elem = "." then dst
        else if elem = ".." then dst.dropLast
        else dst ++ [elem])
      ([] : List String)
    let dst :=
      match src.getLast? with
      | some l => if l = "." || l = ".." then dst ++ [""] else dst
      | none => dst
    let joined := String.intercalate "/" dst
    "/" ++ (if strStarts joined "/" then String.mk (joined.data.drop 1) else joined)

/-- Go `URL.ResolveReference u ref`: the absolute / net-path case, the
opaque case, the query-and-fragment inheritance for an empty reference,
then the relative-path merge. -/
def resolveReference (u ref : URL) : URL :=
  let url0 := if ref.scheme = "" then { ref with scheme := u.scheme } else ref
  if ref.scheme ≠ "" || ref.host ≠ "" || ref.user ≠ none then
    { url0 with path := resolvePath ref.path "" }
  else if ref.opaquePart ≠ "" then
    { url0 with user := none, host := "", path := "" }
  else
    let url1 :=
      if ref.path = "" && !ref.forceQuery && ref.rawQuery = "" then
        let u2 := { url0 with rawQuery := u.rawQuery }
        if ref.fragment = "" then { u2 with fragment := u.fragment } else u2
      else url0
    { url1 with user := u.user, host := u.host, path := resolvePath u.path ref.path }

/-- Whether a schemeless, hostless serialization needs a `./` guard: the
path's first `:` comes before any `/` (Go `URL.String`'s RFC 3986 §4.2
case). -/
def needsDotSlash (path : String) : Bool :=
  match firstIdxOf path ':' with
  | none => false
  | some i => !(path.data.take i).contains '/'

/-- Go `URL.String` over the serialized-form model: scheme, opaque or
authority-plus-path, then query and fragment. -/
def urlString (u : URL) : String :=
  let buf0 := if u.scheme ≠ "" then u.scheme ++ ":" else ""
  let core :=
    if u.opaquePart ≠ "" then buf0 ++ u.opaquePart
    else
      let buf1 :=
        if u.scheme ≠ "" || u.host ≠ "" || u.user ≠ none then
          (if u.host ≠ "" || u.path ≠ "" || u.user ≠ none then buf0 ++ "//" else buf0)
            ++ (match u.user with
                | some ui => ui ++ "@"
                | none => "")
            ++ u.host
        else buf0
      let buf2 :=
        if u.path ≠ "" && !strStarts u.path "/" && u.host ≠ "" then buf1 ++ "/"
        else buf1
      let buf3 := if buf2 = "" && needsDotSlash u.path then "./" else buf2
      buf3 ++ u.path
  let core2 := if u.forceQuery || u.rawQuery ≠ "" then core ++ "?" ++ u.rawQuery else core
  if u.fragment ≠ "" then core2 ++ "#" ++ u.fragment else core2

/-- The handler's `resolveURL` (summary.go lines 193–198).  Both parse
errors are dropped with `_`; a `none` from `goParseURL` is a nil `*URL`.
`bURL.ResolveReference(lURL)` first copies `*lURL` — nil `lURL` faults —
and reads `bURL.Scheme` only when the reference has no scheme of its own,
so a nil `bURL` faults exactly when `lURL.Scheme` is empty.  `none` models
the nil-dereference fault. -/
def resolveURL (base loc : String) : Option String :=
  match goParseURL loc with
  | none => none
  | some lURL =>
    match goParseURL base with
    | some bURL => some (urlString (resolveReference bURL lURL))
    | none =>
      if lURL.scheme = "" then none
      else some (urlString { lURL with path := resolvePath lURL.path "" })

/-! ### The summary data model -/

/-- PreviewImage (summary.go lines 18–25); Go `int` as `Int`. -/
structure PreviewImage where
  url : String := ""
  secureURL : String := ""
  type : String := ""
  width : Int := 0
  height : Int := 0
  alt : String := ""
deriving Repr, DecidableEq

/-- PageSummary (summary.go lines 28–38); Go's nil-able `*PreviewImage`
icon is an `Option`, its `[]*PreviewImage` images a list. -/
structure PageSummary where
  type : String := ""
  url : String := ""
  title : String := ""
  siteName : String := ""
  description : String := ""
  author : String := ""
  keywords : List String := []
  icon : Option PreviewImage := none
  images : List PreviewImage := []
deriving Repr, DecidableEq

/-- Faults a parse can hit: the out-of-range index on the images slice
(line 150), the out-of-range index on the sizes slice (line 222), the nil
`*URL` dereference inside `resolveURL`'s caller (lines 194–197), and the
`log.Fatalf` process abort on a tokenizer error (line 111). -/
inductive Fault where
  | imagesIndex
  | sizesIndex
  | nilURLDeref
  | fatalTokenize (msg : String)
deriving Repr, DecidableEq

/-- Go `strconv.Atoi` with the returned error ignored, as every call site
here does: the value for a well-formed signed decimal, `0` on a syntax
error.  64-bit range clamping on overflow is not modelled; no input
exercised here approaches that range. -/
def goAtoi (s : String) : Int :=
  let p : Bool × List Char :=
    match s.data with
    | '-' :: rest => (true, rest)
    | '+' :: rest => (false, rest)
    | l => (false, l)
  if p.2 ≠ [] && p.2.all isDigitCh then
    (if p.1 then -1 else 1) *
      (p.2.foldl (fun a c => a * 10 + (c.toNat - 48)) (0 : Nat) : Int)
  else 0

/-- Go `getAttr` (lines 182–189) with the error dropped as at every call
site: the value of the first attribute with the given key, else `""`. -/
def getAttr (attrs : List (String × String)) (key : String) : String :=
  match attrs.find? (fun a => a.1 == key) with
  | some a => a.2
  | none => ""

/-- Go `buildImage` (lines 231–251): `og:image` sets (and, unless the
content starts with `http`, resolves) the url; `og:image:secure_url`
always resolves; type/width/height/alt copy or `Atoi`.  A `resolveURL`
fault propagates. -/
def buildImage (prop pageURL : String) (image : PreviewImage) (cont : String) :
    Except Fault PreviewImage :=
  let step1 : Except Fault PreviewImage :=
    if prop = "og:image" then
      if !strStarts cont "http" then
        match resolveURL pageURL cont with
        | none => .error .nilURLDeref
        | some r => .ok { image with url := r }
      else .ok { image with url := cont }
    else .ok image
  match step1 with
  | .error f => .error f
  | .ok image =>
    if prop = "og:image:secure_url" then
      match resolveURL pageURL cont with
      | none => .error .nilURLDeref
      | some r => .ok { image with secureURL := r }
    else if prop = "og:image:type" then .ok { image with type := cont }
    else if prop = "og:image:width" then .ok { image with width := goAtoi cont }
    else if prop = "og:image:height" then .ok { image with height := goAtoi cont }
    else if prop = "og:image:alt" then .ok { image with alt := cont }
    else .ok image

/-- The `href` step of `buildIcon` (lines 212–214): resolve unless the href
already starts with `http`; a `resolveURL` fault is `none`. -/
def hrefStep (pageURL href : String) : Option String :=
  if !strStarts href "http" then resolveURL pageURL href else some href

/-- Go `buildIcon` (lines 203–226): only a `rel="icon"` tag fills the
record; a `sizes` other than `""`/`"any"` is split on `x`, indexing
element 1 — out of range when no `x` occurs (`Fault.sizesIndex`) — with the
first component parsed into height and the second into width. -/
def buildIcon (attrs : List (String × String)) (pageURL : String) :
    Except Fault PreviewImage :=
  let rel := getAttr attrs "rel"
  if rel = "icon" then
    let typ := getAttr attrs "type"
    let alt := getAttr attrs "alt"
    let sizes := getAttr attrs "sizes"
    match hrefStep pageURL (getAttr attrs "href") with
    | none => .error .nilURLDeref
    | some href =>
      let temp : PreviewImage := { url := href, alt := alt, type := typ }
      if sizes ≠ "any" ∧ sizes ≠ "" then
        match goSplit sizes 'x' with
        | s0 :: s1 :: _ => .ok { temp with height := goAtoi s0, width := goAtoi s1 }
        | _ => .error .sizesIndex
      else .ok temp
  else .ok {}

/-! ### The head-parser state machine -/

/-- Token types of `golang.org/x/net/html` relevant to the scan. -/
inductive TokType where
  | startTag
  | selfClosingTag
  | endTag
  | text
  | comment
  | doctype
deriving Repr, DecidableEq

/-- One tokenizer token: type, tag name or text data, attributes. -/
structure Tok where
  type : TokType
  data : String
  attrs : List (String × String) := []
deriving Repr, DecidableEq

/-- Whether the per-token dispatch runs (line 115). -/
def startish (t : Tok) : Bool :=
  t.type == TokType.startTag || t.type == TokType.selfClosingTag

/-- The `og:type` / `og:url` / `og:title` / `og:site_name` chain
(lines 120–128). -/
def metaBasic (s : PageSummary) (prop cont : String) : PageSummary :=
  if prop = "og:type" then { s with type := cont }
  else if prop = "og:url" then { s with url := cont }
  else if prop = "og:title" then { s with title := cont }
  else if prop = "og:site_name" then { s with siteName := cont }
  else s

/-- Description precedence (lines 130–134): `og:description` overwrites;
a plain `name="description"` writes only when no description is set. -/
def metaDesc (s : PageSummary) (prop name cont : String) : PageSummary :=
  if prop = "og:description" then { s with description := cont }
  else if name = "description" ∧ s.description = "" then { s with description := cont }
  else s

/-- The author tag (lines 136–138). -/
def metaAuthor (s : PageSummary) (name cont : String) : PageSummary :=
  if name = "author" then { s with author := cont } else s

/-- The keywords tag (lines 140–146): with a comma, strip spaces and split;
else a one-element list. -/
def metaKeywords (s : PageSummary) (name cont : String) : PageSummary :=
  if name = "keywords" then
    { s with keywords :=
        if strContains cont ',' then goSplit (String.mk (cont.data.filter (· ≠ ' '))) ','
        else [cont] }
  else s

/-- The `og:image` block (lines 148–155): a sub-property mutates the last
image — indexing `Images[len-1]`, out of range on an empty list
(`Fault.imagesIndex`) — and a bare `og:image` prefix appends a fresh one. -/
def metaImages (pageURL : String) (s : PageSummary) (prop cont : String) :
    Except Fault PageSummary :=
  if strStarts prop "og:image" then
    if strStarts prop "og:image:" then
      match s.images with
      | [] => .error .imagesIndex
      | i :: is =>
        match buildImage prop pageURL ((i :: is).getLast (List.cons_ne_nil i is)) cont with
        | .error f => .error f
        | .ok img => .ok { s with images := s.images.dropLast ++ [img] }
    else
      match buildImage prop pageURL {} cont with
      | .error f => .error f
      | .ok img => .ok { s with images := s.images ++ [img] }
  else .ok s

/-- The whole `meta` branch (lines 116–156). -/
def processMeta (pageURL : String) (s : PageSummary) (attrs : List (String × String)) :
    Except Fault PageSummary :=
  let prop := getAttr attrs "property"
  let name := getAttr attrs "name"
  let cont := getAttr attrs "content"
  metaImages pageURL
    (metaKeywords (metaAuthor (metaDesc (metaBasic s prop cont) prop name cont) name cont)
      name cont)
    prop cont

/-- The `link` branch (lines 165–167): every `link` start tag replaces the
icon with `buildIcon`'s result. -/
def linkStep (pageURL : String) (s : PageSummary) (t : Tok) : Except Fault PageSummary :=
  if t.data = "link" then
    match buildIcon t.attrs pageURL with
    | .error f => .error f
    | .ok ic => .ok { s with icon := some ic }
  else .ok s

/-- The scan loop of `extractSummary` (lines 104–174) over an explicit
token list.  The end of the list is the tokenizer's `ErrorToken`:
`endErr = none` is `io.EOF` (break, then `return summary, tokenizer.Err()`
— which at that point IS `io.EOF`, modelled as `some "EOF"`), any other
error is the `log.Fatalf` abort.  A `title` start tag with no title set
consumes exactly the next token (lines 158–163); when that next "token" is
the end of the stream the loop's next iteration handles the same
`ErrorToken`, so that case is written out here directly. -/
def extractLoop (pageURL : String) (endErr : Option String) :
    PageSummary → List Tok → Except Fault (PageSummary × Option String)
  | s, [] =>
    (match endErr with
     | none => .ok (s, some "EOF")
     | some msg => .error (.fatalTokenize msg))
  | s, t :: rest =>
    if startish t then
      match (if t.data = "meta" then processMeta pageURL s t.attrs else .ok s) with
      | .error f => .error f
      | .ok s1 =>
        if t.data = "title" ∧ s1.title = "" then
          match rest with
          | [] =>
            (match linkStep pageURL s1 t with
             | .error f => .error f
             | .ok s3 =>
               match endErr with
               | none => .ok (s3, some "EOF")
               | some msg => .error (.fatalTokenize msg))
          | t2 :: r2 =>
            let s2 := if t2.type = TokType.text then { s1 with title := t2.data } else s1
            match linkStep pageURL s2 t with
            | .error f => .error f
            | .ok s3 => extractLoop pageURL endErr s3 r2
        else
          match linkStep pageURL s1 t with
          | .error f => .error f
          | .ok s3 => extractLoop pageURL endErr s3 rest
    else if t.type = TokType.endTag ∧ t.data = "head" then .ok (s, none)
    else extractLoop pageURL endErr s rest

/-- Go `extractSummary` (lines 98–177): scan from an empty summary. -/
def extractSummary (pageURL : String) (toks : List Tok) (endErr : Option String) :
    Except Fault (PageSummary × Option String) :=
  extractLoop pageURL endErr {} toks

/-! ### Stream predicates used by the claims -/

/-- Tokens dispatched as a `meta` tag whose `property` is exactly
`og:image`: the appending case of the image block (line 153). -/
def isOgExact (t : Tok) : Bool :=
  startish t && t.data == "meta" && getAttr t.attrs "property" == "og:image"

/-- Tokens dispatched as a `meta` tag whose `property` starts with
`og:image:`: the sub-property case indexing the last image (line 150). -/
def isOgSub (t : Tok) : Bool :=
  startish t && t.data == "meta" && strStarts (getAttr t.attrs "property") "og:image:"

/-- Tokens dispatched as a `meta` tag whose `property` is
`og:description`. -/
def isOgDesc (t : Tok) : Bool :=
  startish t && t.data == "meta" && getAttr t.attrs "property" == "og:description"

/-- Every `og:image:` sub-property token of the stream is preceded by at
least one exact `og:image` token; `seen` records whether one has already
occurred. -/
def guardedB (seen : Bool) : List Tok → Bool
  | [] => true
  | t :: rest => (!isOgSub t || seen) && guardedB (seen || isOgExact t) rest

/-- No `title` start or self-closing tag occurs in the stream (so no
lookahead ever swallows a token). -/
def noTitleB (toks : List Tok) : Bool :=
  toks.all fun t => !(startish t && t.data == "title")

/-- No `head` end tag occurs in the stream: the stream is the head's
contents and the scan consumes all of it. -/
def noHeadEndB (toks : List Tok) : Bool :=
  toks.all fun t => !(t.type == TokType.endTag && t.data == "head")

/-- No `og:description` token occurs in the stream. -/
def noOgDescB (toks : List Tok) : Bool :=
  toks.all fun t => !isOgDesc t

/-- The last `og:description` token of the stream, if any. -/
def lastOgDesc (toks : List Tok) : Option Tok :=
  (toks.filter isOgDesc).getLast?

/-! ### Theorems -/

/-- C2: the token stream `og:image` content `/img1.png`, then
`og:image:width` content `100`, then `og:image:height` content `200`,
parsed against base `https://example.com/page`, yields exactly one image,
with url `https://example.com/img1.png`, width 100 and height 200. -/
theorem extractSummary_image_sequence :
    extractSummary "https://example.com/page"
      [⟨TokType.startTag, "meta", [("property", "og:image"), ("content", "/img1.png")]⟩,
       ⟨TokType.startTag, "meta", [("property", "og:image:width"), ("content", "100")]⟩,
       ⟨TokType.startTag, "meta", [("property", "og:image:height"), ("content", "200")]⟩]
      none
    = .ok ({ images := [{ url := "https://example.com/img1.png",
                          width := 100, height := 200 }] },
           some "EOF") := by
  rfl

/-- C5: on a tokenizer error other than end-of-stream the code does not
report an error result to the caller — it aborts the whole process through
`log.Fatalf` (modelled as `Fault.fatalTokenize`); and on end-of-stream the
scan does terminate with the accumulated summary, but pairs it with the
non-nil error value `io.EOF` rather than no error. -/
theorem extractSummary_tokenize_error_fatal :
    extractSummary "https://example.com/" [] (some "bad markup")
      = .error (.fatalTokenize "bad markup")
    ∧ extractSummary "https://example.com/" [] none = .ok ({}, some "EOF") :=
  ⟨rfl, rfl⟩

/-- C6 counterexample: the candidate `":"` fails `url.Parse` (missing
protocol scheme), and the resolver does not return `":"` unresolved — it
dereferences the nil `*URL` and faults (`none`). -/
theorem resolveURL_parse_failure_counterexample :
    goParseURL ":" = none ∧ resolveURL "https://example.com/" ":" = none :=
  ⟨rfl, rfl⟩

/-- C6 amended: when the candidate string fails to parse the resolver
faults (nil dereference) instead of returning the candidate unresolved;
when only the base fails to parse, the resolver faults exactly when the
candidate has no scheme — otherwise it resolves the candidate without
consulting the base, the result depending on the candidate alone. -/
theorem resolveURL_parse_failure_faults (base loc : String) :
    (goParseURL loc = none → resolveURL base loc = none)
    ∧ (∀ u : URL, goParseURL base = none → goParseURL loc = some u →
        (u.scheme = "" → resolveURL base loc = none)
        ∧ (u.scheme ≠ "" →
            resolveURL base loc
              = some (urlString { u with path := resolvePath u.path "" }))) := by
  constructor
  · intro h
    simp [resolveURL, h]
  · intro u hb hl
    constructor
    · intro hs
      simp [resolveURL, hb, hl, hs]
    · intro hs
      simp [resolveURL, hb, hl, hs]

/-- C6 witness: both conjuncts at concrete inputs — an unparseable
candidate faults, and an unparseable base with an absolute candidate
yields the candidate's own resolution. -/
theorem resolveURL_parse_failure_faults_witness :
    resolveURL "http://example.com/x" ":" = none
    ∧ resolveURL ":" "mailto:x" = some "mailto:x" :=
  ⟨(resolveURL_parse_failure_faults "http://example.com/x" ":").1 rfl,
   ((resolveURL_parse_failure_faults ":" "mailto:x").2
      { scheme := "mailto", opaquePart := "x" } rfl rfl).2 (by decide)⟩

/-- C4 counterexample: a present, non-empty, non-`any` `sizes` value with
no `x` separator does not leave width and height at zero — `sizeSlice[1]`
is out of range and the builder faults. -/
theorem buildIcon_missing_separator_faults :
    buildIcon [("rel", "icon"), ("href", "http://e/i.png"), ("sizes", "16")]
      "https://example.com/"
    = .error .sizesIndex := rfl

/-- C4 amended: for a `rel="icon"` link whose `sizes` value does contain
the `x` separator but has non-numeric components (each parsing to zero),
and whose href step succeeds, the Icon Builder leaves width and height at
zero and does not fail; a `sizes` value with no separator instead faults
(see the counterexample). -/
theorem buildIcon_nonnumeric_sizes_zero
    (attrs : List (String × String)) (pageURL : String)
    (a b href : String) (rest : List String)
    (hrel : getAttr attrs "rel" = "icon")
    (hsplit : goSplit (getAttr attrs "sizes") 'x' = a :: b :: rest)
    (ha : goAtoi a = 0) (hb : goAtoi b = 0)
    (hhref : hrefStep pageURL (getAttr attrs "href") = some href) :
    buildIcon attrs pageURL
      = .ok { url := href, type := getAttr attrs "type", alt := getAttr attrs "alt" } := by
  have hany : getAttr attrs "sizes" ≠ "any" := by
    intro h
    rw [h] at hsplit
    have h2 : (["any"] : List String) = a :: b :: rest := hsplit
    injection h2 with _ h3
    injection h3
  have hempty : getAttr attrs "sizes" ≠ "" := by
    intro h
    rw [h] at hsplit
    have h2 : ([""] : List String) = a :: b :: rest := hsplit
    injection h2 with _ h3
    injection h3
  rw [buildIcon.eq_def]
  simp only [hhref]
  rw [if_pos hrel, if_pos ⟨hany, hempty⟩, hsplit]
  simp [ha, hb]

/-- C4 witness: the amended theorem at a concrete malformed-but-separated
sizes value. -/
theorem buildIcon_nonnumeric_sizes_zero_witness :
    buildIcon [("rel", "icon"), ("href", "http://e/i.png"), ("sizes", "axb")]
      "https://example.com/"
    = .ok { url := "http://e/i.png" } :=
  buildIcon_nonnumeric_sizes_zero
    [("rel", "icon"), ("href", "http://e/i.png"), ("sizes", "axb")]
    "https://example.com/" "a" "b" "http://e/i.png" [] rfl rfl rfl rfl rfl

/-- C7: `<link rel="icon" href="icon.png" sizes="16x32">` against base
`https://example.com/` yields the icon `https://example.com/icon.png` with
height 16 and width 32; and in general, whenever the builder returns a
record for a `rel="icon"` tag whose sizes split on `x` into at least two
components, the first component is parsed into height and the second into
width (the swapped order). -/
theorem buildIcon_height_width_swapped :
    (extractSummary "https://example.com/"
        [⟨TokType.startTag, "link",
          [("rel", "icon"), ("href", "icon.png"), ("sizes", "16x32")]⟩] none
      = .ok ({ icon := some { url := "https://example.com/icon.png",
                              height := 16, width := 32 } }, some "EOF"))
    ∧ ∀ (attrs : List (String × String)) (pageURL : String) (img : PreviewImage)
        (a b : String) (rest : List String),
        getAttr attrs "rel" = "icon" →
        goSplit (getAttr attrs "sizes") 'x' = a :: b :: rest →
        buildIcon attrs pageURL = .ok img →
        img.height = goAtoi a ∧ img.width = goAtoi b := by
  constructor
  · rfl
  · intro attrs pageURL img a b rest hrel hsplit hok
    have hany : getAttr attrs "sizes" ≠ "any" := by
      intro h
      rw [h] at hsplit
      have h2 : (["any"] : List String) = a :: b :: rest := hsplit
      injection h2 with _ h3
      injection h3
    have hempty : getAttr attrs "sizes" ≠ "" := by
      intro h
      rw [h] at hsplit
      have h2 : ([""] : List String) = a :: b :: rest := hsplit
      injection h2 with _ h3
      injection h3
    cases hh : hrefStep pageURL (getAttr attrs "href") with
    | none =>
      rw [buildIcon.eq_def] at hok
      simp [hrel, hh] at hok
    | some href =>
      rw [buildIcon.eq_def] at hok
      simp only [hh] at hok
      rw [if_pos hrel, if_pos ⟨hany, hempty⟩, hsplit] at hok
      have h4 : (Except.ok (⟨href, "", getAttr attrs "type", goAtoi b, goAtoi a,
          getAttr attrs "alt"⟩ : PreviewImage) : Except Fault PreviewImage)
          = .ok img := hok
      injection h4 with h5
      rw [← h5]
      exact ⟨rfl, rfl⟩

/-- C7 witness: the general swapped-order conjunct at a concrete tag. -/
theorem buildIcon_height_width_swapped_witness :
    ({ url := "https://example.com/", height := 7, width := 9 } :
      PreviewImage).height = goAtoi "7"
    ∧ ({ url := "https://example.com/", height := 7, width := 9 } :
        PreviewImage).width = goAtoi "9" :=
  buildIcon_height_width_swapped.2 [("rel", "icon"), ("sizes", "7x9")]
    "https://example.com/"
    { url := "https://example.com/", height := 7, width := 9 } "7" "9" [] rfl rfl rfl

/-- C8: every `link` start or self-closing tag replaces the summary's icon
unconditionally with the Icon Builder's result, and for a tag whose `rel`
is not `icon` that result is the empty record (so a previously found icon
is overwritten by an empty one). -/
theorem extractLoop_link_replaces_icon
    (pageURL : String) (endErr : Option String) (s : PageSummary) (rest : List Tok)
    (ty : TokType) (attrs : List (String × String)) (img : PreviewImage)
    (hty : ty = TokType.startTag ∨ ty = TokType.selfClosingTag)
    (hic : buildIcon attrs pageURL = .ok img) :
    extractLoop pageURL endErr s (⟨ty, "link", attrs⟩ :: rest)
      = extractLoop pageURL endErr { s with icon := some img } rest
    ∧ (getAttr attrs "rel" ≠ "icon" → img = {}) := by
  constructor
  · have hst : startish ⟨ty, "link", attrs⟩ = true := by
      cases hty with
      | inl h => simp [startish, h]
      | inr h => simp [startish, h]
    simp [extractLoop, hst, linkStep, hic]
  · intro hrel
    have hempty : buildIcon attrs pageURL = .ok {} := by
      rw [buildIcon.eq_def]
      simp [hrel]
    rw [hempty] at hic
    injection hic with h
    exact h.symm

/-- C8 witness: a stylesheet link replacing a previously found icon with
the empty record. -/
theorem extractLoop_link_replaces_icon_witness :
    extractLoop "https://example.com/" none
        { icon := some { url := "https://example.com/old.png" } }
        [⟨TokType.startTag, "link", [("rel", "stylesheet"), ("href", "s.css")]⟩]
      = extractLoop "https://example.com/" none
          { icon := some ({} : PreviewImage) } []
    ∧ (getAttr [("rel", "stylesheet"), ("href", "s.css")] "rel" ≠ "icon" →
        ({} : PreviewImage) = {}) :=
  extractLoop_link_replaces_icon "https://example.com/" none
    { icon := some { url := "https://example.com/old.png" } } []
    TokType.startTag [("rel", "stylesheet"), ("href", "s.css")] {}
    (Or.inl rfl) rfl

/-- C10: when no title is set yet, a `title` start tag consumes exactly the
next token unconditionally; when that token is not a text token it is
never dispatched by the per-token logic — the scan continues directly
after it with the summary unchanged (so any metadata it carried is lost
and the title stays unset for this occurrence). -/
theorem extractLoop_title_lookahead
    (pageURL : String) (endErr : Option String) (s : PageSummary)
    (attrs : List (String × String)) (t2 : Tok) (rest : List Tok)
    (htitle : s.title = "")
    (ht2 : t2.type ≠ TokType.text) :
    extractLoop pageURL endErr s (⟨TokType.startTag, "title", attrs⟩ :: t2 :: rest)
      = extractLoop pageURL endErr s rest := by
  simp [extractLoop, startish, linkStep, htitle, ht2]

/-- C10 witness: a title lookahead that swallows a meta token carrying
`og:type` metadata, at concrete inputs. -/
theorem extractLoop_title_lookahead_witness :
    extractLoop "https://example.com/" none {}
        [⟨TokType.startTag, "title", []⟩,
         ⟨TokType.startTag, "meta", [("property", "og:type"), ("content", "video")]⟩]
      = extractLoop "https://example.com/" none {} [] :=
  extractLoop_title_lookahead "https://example.com/" none {} []
    ⟨TokType.startTag, "meta", [("property", "og:type"), ("content", "video")]⟩ []
    rfl (by decide)

/-! ### Fault and preservation lemmas for the scan -/

theorem buildImage_ne_imagesIndex (prop pageURL : String) (img : PreviewImage)
    (cont : String) :
    buildImage prop pageURL img cont ≠ .error Fault.imagesIndex := by
  intro h
  rw [buildImage.eq_def] at h
  simp only [] at h
  split at h
  next f heq =>
    injection h with h2
    subst h2
    split at heq
    · split at heq
      · cases hres : resolveURL pageURL cont <;> rw [hres] at heq <;> simp at heq
      · simp at heq
    · simp at heq
  next heq =>
    split_ifs at h
    · split at h <;> simp at h

theorem buildIcon_ne_imagesIndex (attrs : List (String × String)) (pageURL : String) :
    buildIcon attrs pageURL ≠ .error Fault.imagesIndex := by
  intro h
  rw [buildIcon.eq_def] at h
  simp only [] at h
  split_ifs at h <;> repeat' (first | (simp at h) | (split at h))

theorem linkStep_ne_imagesIndex (pageURL : String) (s : PageSummary) (t : Tok) :
    linkStep pageURL s t ≠ .error Fault.imagesIndex := by
  intro h
  rw [linkStep.eq_def] at h
  cases hb : buildIcon t.attrs pageURL with
  | error f =>
    rw [hb] at h
    split_ifs at h <;> simp at h
    exact buildIcon_ne_imagesIndex t.attrs pageURL (by rw [hb, h])
  | ok ic =>
    rw [hb] at h
    split_ifs at h <;> simp at h

theorem linkStep_ok (pageURL : String) (s s3 : PageSummary) (t : Tok)
    (h : linkStep pageURL s t = .ok s3) :
    s3.images = s.images ∧ s3.description = s.description ∧ s3.title = s.title := by
  rw [linkStep.eq_def] at h
  cases hb : buildIcon t.attrs pageURL with
  | error f =>
    rw [hb] at h
    split_ifs at h <;> simp at h
    subst h
    exact ⟨rfl, rfl, rfl⟩
  | ok ic =>
    rw [hb] at h
    split_ifs at h <;> injection h with h2 <;> subst h2 <;> exact ⟨rfl, rfl, rfl⟩

theorem metaBasic_images (s : PageSummary) (prop cont : String) :
    (metaBasic s prop cont).images = s.images := by
  rw [metaBasic]
  split_ifs <;> rfl

theorem metaBasic_description (s : PageSummary) (prop cont : String) :
    (metaBasic s prop cont).description = s.description := by
  rw [metaBasic]
  split_ifs <;> rfl

theorem metaDesc_images (s : PageSummary) (prop name cont : String) :
    (metaDesc s prop name cont).images = s.images := by
  rw [metaDesc]
  split_ifs <;> rfl

theorem metaAuthor_images (s : PageSummary) (name cont : String) :
    (metaAuthor s name cont).images = s.images := by
  rw [metaAuthor]
  split_ifs <;> rfl

theorem metaAuthor_description (s : PageSummary) (name cont : String) :
    (metaAuthor s name cont).description = s.description := by
  rw [metaAuthor]
  split_ifs <;> rfl

theorem metaKeywords_images (s : PageSummary) (name cont : String) :
    (metaKeywords s name cont).images = s.images := by
  rw [metaKeywords]
  split_ifs <;> rfl

theorem metaKeywords_description (s : PageSummary) (name cont : String) :
    (metaKeywords s name cont).description = s.description := by
  rw [metaKeywords]
  split_ifs <;> rfl

theorem metaDesc_description_og (s : PageSummary) (prop name cont : String)
    (h : prop = "og:description") :
    (metaDesc s prop name cont).description = cont := by
  rw [metaDesc, if_pos h]

theorem metaDesc_description_not_og (s : PageSummary) (prop name cont : String)
    (h : prop ≠ "og:description") (hd : s.description ≠ "") :
    (metaDesc s prop name cont).description = s.description := by
  rw [metaDesc, if_neg h, if_neg (fun hc => hd hc.2)]

theorem metaImages_description (pageURL : String) (s s' : PageSummary) (prop cont : String)
    (h : metaImages pageURL s prop cont = .ok s') :
    s'.description = s.description := by
  rw [metaImages.eq_def] at h
  split_ifs at h
  · split at h
    · simp at h
    · split at h
      · simp at h
      · injection h with h2
        subst h2
        rfl
  · split at h
    · simp at h
    · injection h with h2
      subst h2
      rfl
  · injection h with h2
    subst h2
    rfl

theorem metaImages_images (pageURL : String) (s s' : PageSummary) (prop cont : String)
    (h : metaImages pageURL s prop cont = .ok s') (hne : s.images ≠ []) :
    s'.images ≠ [] := by
  rw [metaImages.eq_def] at h
  split_ifs at h
  · split at h
    · simp at h
    · split at h
      · simp at h
      · injection h with h2
        subst h2
        simp
  · split at h
    · simp at h
    · injection h with h2
      subst h2
      simp
  · injection h with h2
    subst h2
    exact hne

theorem metaImages_exact (pageURL : String) (s s' : PageSummary) (cont : String)
    (h : metaImages pageURL s "og:image" cont = .ok s') :
    s'.images ≠ [] := by
  rw [metaImages.eq_def] at h
  rw [if_pos (by decide), if_neg (by decide)] at h
  split at h
  · simp at h
  · injection h with h2
    subst h2
    simp

theorem metaImages_ne_imagesIndex (pageURL : String) (s : PageSummary) (prop cont : String)
    (hg : strStarts prop "og:image:" = true → s.images ≠ []) :
    metaImages pageURL s prop cont ≠ .error Fault.imagesIndex := by
  intro h
  rw [metaImages.eq_def] at h
  split_ifs at h
  next hpre hsub =>
    split at h
    next heq => exact hg hsub heq
    next i is heq =>
      split at h
      · next f heq2 =>
        injection h with h2
        exact buildImage_ne_imagesIndex _ pageURL _ cont (by rw [heq2, h2])
      · simp at h
  next hpre hsub =>
    split at h
    · next f heq2 =>
      injection h with h2
      exact buildImage_ne_imagesIndex _ pageURL _ cont (by rw [heq2, h2])
    · simp at h

theorem processMeta_images (pageURL : String) (s s' : PageSummary)
    (attrs : List (String × String))
    (h : processMeta pageURL s attrs = .ok s') (hne : s.images ≠ []) :
    s'.images ≠ [] := by
  rw [processMeta] at h
  refine metaImages_images _ _ _ _ _ h ?_
  rw [metaKeywords_images, metaAuthor_images, metaDesc_images, metaBasic_images]
  exact hne

theorem processMeta_exact (pageURL : String) (s s' : PageSummary)
    (attrs : List (String × String))
    (hprop : getAttr attrs "property" = "og:image")
    (h : processMeta pageURL s attrs = .ok s') :
    s'.images ≠ [] := by
  rw [processMeta] at h
  simp only [hprop] at h
  exact metaImages_exact _ _ _ _ h

theorem processMeta_ne_imagesIndex (pageURL : String) (s : PageSummary)
    (attrs : List (String × String))
    (hg : strStarts (getAttr attrs "property") "og:image:" = true → s.images ≠ []) :
    processMeta pageURL s attrs ≠ .error Fault.imagesIndex := by
  rw [processMeta]
  apply metaImages_ne_imagesIndex
  intro hsub
  rw [metaKeywords_images, metaAuthor_images, metaDesc_images, metaBasic_images]
  exact hg hsub

theorem processMeta_description_og (pageURL : String) (s s' : PageSummary)
    (attrs : List (String × String))
    (hprop : getAttr attrs "property" = "og:description")
    (h : processMeta pageURL s attrs = .ok s') :
    s'.description = getAttr attrs "content" := by
  rw [processMeta] at h
  rw [metaImages_description _ _ _ _ _ h, metaKeywords_description, metaAuthor_description]
  exact metaDesc_description_og _ _ _ _ hprop

theorem processMeta_description_not_og (pageURL : String) (s s' : PageSummary)
    (attrs : List (String × String))
    (hprop : getAttr attrs "property" ≠ "og:description")
    (hd : s.description ≠ "")
    (h : processMeta pageURL s attrs = .ok s') :
    s'.description = s.description := by
  rw [processMeta] at h
  rw [metaImages_description _ _ _ _ _ h, metaKeywords_description, metaAuthor_description]
  rw [metaDesc_description_not_og _ _ _ _ hprop (by rw [metaBasic_description]; exact hd)]
  exact metaBasic_description s _ _

theorem extractLoop_nil (pageURL : String) (endErr : Option String) (s : PageSummary) :
    extractLoop pageURL endErr s []
      = match endErr with
        | none => .ok (s, some "EOF")
        | some msg => .error (.fatalTokenize msg) := rfl

theorem extractLoop_cons_headend (pageURL : String) (endErr : Option String)
    (s : PageSummary) (t : Tok) (rest : List Tok)
    (hst : startish t = false) (h1 : t.type = TokType.endTag) (h2 : t.data = "head") :
    extractLoop pageURL endErr s (t :: rest) = .ok (s, none) := by
  simp [extractLoop, hst, h1, h2]

theorem extractLoop_cons_nonstart (pageURL : String) (endErr : Option String)
    (s : PageSummary) (t : Tok) (rest : List Tok)
    (hst : startish t = false) (hhe : ¬(t.type = TokType.endTag ∧ t.data = "head")) :
    extractLoop pageURL endErr s (t :: rest) = extractLoop pageURL endErr s rest := by
  simp [extractLoop, hst, hhe]

theorem extractLoop_cons_step (pageURL : String) (endErr : Option String)
    (s : PageSummary) (t : Tok) (rest : List Tok)
    (hst : startish t = true) (hti : t.data ≠ "title") :
    extractLoop pageURL endErr s (t :: rest)
      = match (if t.data = "meta" then processMeta pageURL s t.attrs else .ok s) with
        | .error f => .error f
        | .ok s1 =>
          match linkStep pageURL s1 t with
          | .error f => .error f
          | .ok s3 => extractLoop pageURL endErr s3 rest := by
  simp [extractLoop, hst, hti, linkStep]

theorem extractLoop_no_imagesIndex (pageURL : String) (endErr : Option String) :
    ∀ (toks : List Tok) (s : PageSummary) (seen : Bool),
      noTitleB toks = true → guardedB seen toks = true →
      (seen = true → s.images ≠ []) →
      extractLoop pageURL endErr s toks ≠ .error Fault.imagesIndex := by
  intro toks
  induction toks with
  | nil =>
    intro s seen _ _ _
    rw [extractLoop_nil]
    cases endErr <;> simp
  | cons t rest ih =>
    intro s seen hnt hg hinv
    rw [noTitleB, List.all_cons, Bool.and_eq_true] at hnt
    obtain ⟨hnt1, hnt2⟩ := hnt
    rw [guardedB, Bool.and_eq_true] at hg
    obtain ⟨hg1, hg2⟩ := hg
    cases hst : startish t with
    | false =>
      have hex : isOgExact t = false := by simp [isOgExact, hst]
      rw [hex, Bool.or_false] at hg2
      by_cases hhe : t.type = TokType.endTag ∧ t.data = "head"
      · rw [extractLoop_cons_headend pageURL endErr s t rest hst hhe.1 hhe.2]
        simp
      · rw [extractLoop_cons_nonstart pageURL endErr s t rest hst hhe]
        exact ih s seen hnt2 hg2 hinv
    | true =>
      have hti : t.data ≠ "title" := by
        intro hd
        simp [hst, hd] at hnt1
      rw [extractLoop_cons_step pageURL endErr s t rest hst hti]
      cases hpm : (if t.data = "meta" then processMeta pageURL s t.attrs else Except.ok s) with
      | error f =>
        simp only []
        by_cases hm : t.data = "meta"
        · rw [if_pos hm] at hpm
          have hgimg : strStarts (getAttr t.attrs "property") "og:image:" = true →
              s.images ≠ [] := by
            intro hsub
            have hsubT : isOgSub t = true := by simp [isOgSub, hst, hm, hsub]
            rw [hsubT] at hg1
            simp at hg1
            exact hinv hg1
          intro hcon
          injection hcon with h2
          subst h2
          exact processMeta_ne_imagesIndex pageURL s t.attrs hgimg hpm
        · rw [if_neg hm] at hpm
          exact absurd hpm (by simp)
      | ok s1 =>
        simp only []
        have hinv1 : (seen || isOgExact t) = true → s1.images ≠ [] := by
          intro hor
          simp only [Bool.or_eq_true] at hor
          cases hor with
          | inl hseen =>
            by_cases hm : t.data = "meta"
            · rw [if_pos hm] at hpm
              exact processMeta_images pageURL s s1 t.attrs hpm (hinv hseen)
            · rw [if_neg hm] at hpm
              injection hpm with h2
              rw [← h2]
              exact hinv hseen
          | inr hex =>
            simp only [isOgExact, Bool.and_eq_true, beq_iff_eq] at hex
            obtain ⟨⟨_, hm⟩, hprop⟩ := hex
            rw [if_pos hm] at hpm
            exact processMeta_exact pageURL s s1 t.attrs hprop hpm
        cases hls : linkStep pageURL s1 t with
        | error f =>
          simp only []
          intro hcon
          injection hcon with h2
          subst h2
          exact linkStep_ne_imagesIndex pageURL s1 t hls
        | ok s3 =>
          simp only []
          apply ih s3 (seen || isOgExact t) hnt2 hg2
          intro hor
          rw [(linkStep_ok pageURL s1 s3 t hls).1]
          exact hinv1 hor

theorem extractLoop_desc_preserved (pageURL : String) (endErr : Option String) :
    ∀ (toks : List Tok) (s s' : PageSummary) (e : Option String),
      noTitleB toks = true → noOgDescB toks = true → s.description ≠ "" →
      extractLoop pageURL endErr s toks = .ok (s', e) → s'.description = s.description := by
  intro toks
  induction toks with
  | nil =>
    intro s s' e _ _ _ h
    rw [extractLoop_nil] at h
    cases endErr with
    | none =>
      simp at h
      rw [← h.1]
    | some msg => simp at h
  | cons t rest ih =>
    intro s s' e hnt hno hd h
    rw [noTitleB, List.all_cons, Bool.and_eq_true] at hnt
    obtain ⟨hnt1, hnt2⟩ := hnt
    rw [noOgDescB, List.all_cons, Bool.and_eq_true] at hno
    obtain ⟨hno1, hno2⟩ := hno
    cases hst : startish t with
    | false =>
      by_cases hhe : t.type = TokType.endTag ∧ t.data = "head"
      · rw [extractLoop_cons_headend pageURL endErr s t rest hst hhe.1 hhe.2] at h
        simp at h
        rw [← h.1]
      · rw [extractLoop_cons_nonstart pageURL endErr s t rest hst hhe] at h
        exact ih s s' e hnt2 hno2 hd h
    | true =>
      have hti : t.data ≠ "title" := by
        intro hdt
        simp [hst, hdt] at hnt1
      rw [extractLoop_cons_step pageURL endErr s t rest hst hti] at h
      cases hpm : (if t.data = "meta" then processMeta pageURL s t.attrs else Except.ok s) with
      | error f =>
        simp only [hpm] at h
        simp at h
      | ok s1 =>
        simp only [hpm] at h
        have hd1 : s1.description = s.description := by
          by_cases hm : t.data = "meta"
          · rw [if_pos hm] at hpm
            have hprop : getAttr t.attrs "property" ≠ "og:description" := by
              intro hp
              have hid : isOgDesc t = true := by simp [isOgDesc, hst, hm, hp]
              rw [hid] at hno1
              simp at hno1
            exact processMeta_description_not_og pageURL s s1 t.attrs hprop hd hpm
          · rw [if_neg hm] at hpm
            injection hpm with h2
            rw [← h2]
        cases hls : linkStep pageURL s1 t with
        | error f =>
          simp only [hls] at h
          simp at h
        | ok s3 =>
          simp only [hls] at h
          have hd3 : s3.description = s1.description := (linkStep_ok pageURL s1 s3 t hls).2.1
          rw [ih s3 s' e hnt2 hno2 (by rw [hd3, hd1]; exact hd) h, hd3, hd1]

theorem extractLoop_last_ogdesc (pageURL : String) (endErr : Option String) :
    ∀ (toks : List Tok) (s s' : PageSummary) (e : Option String) (td : Tok),
      noTitleB toks = true → noHeadEndB toks = true →
      lastOgDesc toks = some td → getAttr td.attrs "content" ≠ "" →
      extractLoop pageURL endErr s toks = .ok (s', e) →
      s'.description = getAttr td.attrs "content" := by
  intro toks
  induction toks with
  | nil =>
    intro s s' e td _ _ hlast _ _
    simp [lastOgDesc] at hlast
  | cons t rest ih =>
    intro s s' e td hnt hhe hlast hc h
    rw [noTitleB, List.all_cons, Bool.and_eq_true] at hnt
    obtain ⟨hnt1, hnt2⟩ := hnt
    rw [noHeadEndB, List.all_cons, Bool.and_eq_true] at hhe
    obtain ⟨hhe1, hhe2⟩ := hhe
    cases hf : rest.filter isOgDesc with
    | nil =>
      have hpair : isOgDesc t = true ∧ td = t := by
        rw [lastOgDesc, List.filter_cons] at hlast
        by_cases hiso : isOgDesc t = true
        · rw [if_pos hiso, hf] at hlast
          simp at hlast
          exact ⟨hiso, hlast.symm⟩
        · rw [if_neg hiso, hf] at hlast
          simp at hlast
      obtain ⟨hiso, htd⟩ := hpair
      subst htd
      simp only [isOgDesc, Bool.and_eq_true, beq_iff_eq] at hiso
      obtain ⟨⟨hst, hm⟩, hprop⟩ := hiso
      have hti : td.data ≠ "title" := by
        rw [hm]
        decide
      rw [extractLoop_cons_step pageURL endErr s td rest hst hti, if_pos hm] at h
      cases hpm : processMeta pageURL s td.attrs with
      | error f =>
        simp only [hpm] at h
        simp at h
      | ok s1 =>
        simp only [hpm] at h
        have hd1 : s1.description = getAttr td.attrs "content" :=
          processMeta_description_og pageURL s s1 td.attrs hprop hpm
        cases hls : linkStep pageURL s1 td with
        | error f =>
          simp only [hls] at h
          simp at h
        | ok s3 =>
          simp only [hls] at h
          have hno2 : noOgDescB rest = true := by
            rw [noOgDescB, List.all_eq_true]
            intro x hx
            have hnx := List.filter_eq_nil_iff.mp hf x hx
            simp [hnx]
          have hd3 : s3.description = getAttr td.attrs "content" := by
            rw [(linkStep_ok pageURL s1 s3 td hls).2.1, hd1]
          rw [extractLoop_desc_preserved pageURL endErr rest s3 s' e hnt2 hno2
              (by rw [hd3]; exact hc) h, hd3]
    | cons x xs =>
      have hlast2 : lastOgDesc rest = some td := by
        rw [lastOgDesc, List.filter_cons] at hlast
        rw [lastOgDesc]
        by_cases hiso : isOgDesc t = true
        · rw [if_pos hiso, hf] at hlast
          rw [List.getLast?_cons_cons] at hlast
          rw [hf]
          exact hlast
        · rw [if_neg hiso, hf] at hlast
          rw [hf]
          exact hlast
      cases hst : startish t with
      | false =>
        have hhe' : ¬(t.type = TokType.endTag ∧ t.data = "head") := by
          intro hcon
          simp [hcon.1, hcon.2] at hhe1
        rw [extractLoop_cons_nonstart pageURL endErr s t rest hst hhe'] at h
        exact ih s s' e td hnt2 hhe2 hlast2 hc h
      | true =>
        have hti : t.data ≠ "title" := by
          intro hdt
          simp [hst, hdt] at hnt1
        rw [extractLoop_cons_step pageURL endErr s t rest hst hti] at h
        cases hpm : (if t.data = "meta" then processMeta pageURL s t.attrs else Except.ok s) with
        | error f =>
          simp only [hpm] at h
          simp at h
        | ok s1 =>
          simp only [hpm] at h
          cases hls : linkStep pageURL s1 t with
          | error f =>
            simp only [hls] at h
            simp at h
          | ok s3 =>
            simp only [hls] at h
            exact ih s3 s' e td hnt2 hhe2 hlast2 hc h

/-- C1 counterexample: a stream satisfying the claim's precondition —
its only `og:image:` sub-property token is preceded by an exact `og:image`
token — on which the scan nevertheless faults with the out-of-range images
index: the `title` lookahead swallows the `og:image` token, so no image is
ever appended before the sub-property arrives. -/
theorem extractSummary_imagesIndex_counterexample :
    guardedB false
        [⟨TokType.startTag, "title", []⟩,
         ⟨TokType.startTag, "meta", [("property", "og:image"), ("content", "http://e/i.png")]⟩,
         ⟨TokType.startTag, "meta", [("property", "og:image:width"), ("content", "100")]⟩]
      = true
    ∧ extractSummary "https://example.com/"
        [⟨TokType.startTag, "title", []⟩,
         ⟨TokType.startTag, "meta", [("property", "og:image"), ("content", "http://e/i.png")]⟩,
         ⟨TokType.startTag, "meta", [("property", "og:image:width"), ("content", "100")]⟩]
        none
      = .error Fault.imagesIndex :=
  ⟨rfl, rfl⟩

/-- C1 amended: over streams in which every `og:image:` sub-property meta
token is preceded by an exact `og:image` meta token AND no `title` start
tag occurs (the title lookahead can swallow the guarding `og:image` token,
see the counterexample), the last-element lookup of the images list never
faults; and for a stream where a sub-property token arrives before any
`og:image` token the parser indexes the last element of the empty images
list, a fault. -/
theorem extractSummary_imagesIndex_guarded :
    (∀ (pageURL : String) (endErr : Option String) (toks : List Tok),
        noTitleB toks = true → guardedB false toks = true →
        extractSummary pageURL toks endErr ≠ .error Fault.imagesIndex)
    ∧ extractSummary "https://example.com/"
        [⟨TokType.startTag, "meta", [("property", "og:image:width"), ("content", "100")]⟩]
        none
      = .error Fault.imagesIndex := by
  constructor
  · intro pageURL endErr toks hnt hg
    exact extractLoop_no_imagesIndex pageURL endErr toks {} false hnt hg (fun h => nomatch h)
  · rfl

/-- C1 witness: the safety conjunct at a concrete guarded stream. -/
theorem extractSummary_imagesIndex_guarded_witness :
    extractSummary "https://example.com/"
      [⟨TokType.startTag, "meta", [("property", "og:image"), ("content", "http://e/i.png")]⟩,
       ⟨TokType.startTag, "meta", [("property", "og:image:width"), ("content", "100")]⟩]
      none ≠ .error Fault.imagesIndex :=
  extractSummary_imagesIndex_guarded.1 "https://example.com/" none
    [⟨TokType.startTag, "meta", [("property", "og:image"), ("content", "http://e/i.png")]⟩,
     ⟨TokType.startTag, "meta", [("property", "og:image:width"), ("content", "100")]⟩]
    rfl rfl

/-- C3 counterexample: an `og:description` tag is present in the head (with
empty content), yet the final description equals the later plain
`name="description"` tag's content `"D"`, not the `og:description` tag's
content: the Open-Graph tag does not determine the final description
regardless of order. -/
theorem extractSummary_ogdesc_counterexample :
    getAttr [("property", "og:description"), ("content", "")] "property" = "og:description"
    ∧ extractSummary "https://example.com/"
        [⟨TokType.startTag, "meta", [("property", "og:description"), ("content", "")]⟩,
         ⟨TokType.startTag, "meta", [("name", "description"), ("content", "D")]⟩]
        none
      = .ok ({ description := "D" }, some "EOF")
    ∧ ("D" : String) ≠ getAttr [("property", "og:description"), ("content", "")] "content" :=
  ⟨rfl, rfl, by decide⟩

/-- C3 amended: over head streams without `title` start tags (no lookahead
swallowing) and without an inner `head` end tag (all tokens scanned), if
the last `og:description` token's content is non-empty, then the final
description equals that content, regardless of where any plain
`name="description"` tags appear. -/
theorem extractSummary_ogdesc_precedence
    (pageURL : String) (endErr : Option String) (toks : List Tok)
    (s : PageSummary) (e : Option String) (td : Tok)
    (hnt : noTitleB toks = true) (hhe : noHeadEndB toks = true)
    (hlast : lastOgDesc toks = some td)
    (hc : getAttr td.attrs "content" ≠ "")
    (h : extractSummary pageURL toks endErr = .ok (s, e)) :
    s.description = getAttr td.attrs "content" :=
  extractLoop_last_ogdesc pageURL endErr toks {} s e td hnt hhe hlast hc h

/-- C3 witness: the amended theorem at a stream placing the plain
description tag before the `og:description` tag. -/
theorem extractSummary_ogdesc_precedence_witness :
    ({ description := "X" } : PageSummary).description
      = getAttr [("property", "og:description"), ("content", "X")] "content" :=
  extractSummary_ogdesc_precedence "https://example.com/" none
    [⟨TokType.startTag, "meta", [("name", "description"), ("content", "D")]⟩,
     ⟨TokType.startTag, "meta", [("property", "og:description"), ("content", "X")]⟩]
    { description := "X" } (some "EOF")
    ⟨TokType.startTag, "meta", [("property", "og:description"), ("content", "X")]⟩
    rfl rfl rfl (by decide) rfl
